import Mathlib

/- Shallow embedding of src/_iterator.py from PyVoroTomo: the master/worker
dispatch protocol, projection- and sensitivity-matrix assembly, the model
update, outlier filtering, ensemble statistics, and the ensemble save
routine, together with theorems settling the specified properties. -/

namespace PyVoroTomo

/- Section: the dispatch protocol (_dispatch and _request_dispatch).

ROOT serves dispatch requests in FIFO arrival order.  _dispatch first
answers one request per task id, sending the ids in sequence order, and
then answers WORLD_SIZE - 1 further requests with the sentinel (None by
default).  We index the service steps of one complete round by
Fin (T + W), where T is the number of task ids and W = WORLD_SIZE - 1 is
the number of non-ROOT workers; reqs i is the rank whose request is
served at step i, and dispatchReply gives the value ROOT sends at step
i.  A worker loops on _request_dispatch and stops requesting as soon as
it receives the sentinel, which is the hypothesis workerStops below. -/

/-- Reply sent by ROOT at the i-th service step of a dispatch round with
task ids given by ids: the first T requests receive the task ids in
order, the remaining W requests receive the sentinel (none). -/
def dispatchReply (T W : ℕ) {α : Type} (ids : Fin T → α) (i : Fin (T + W)) : Option α :=
  if h : i.val < T then some (ids ⟨i.val, h⟩) else none

/-- Worker-side protocol of _request_dispatch loops: a worker that has
received the sentinel at step i never issues another request, so its
rank does not occur at any later service step. -/
def workerStops (T W : ℕ) {α : Type} (ids : Fin T → α) (reqs : Fin (T + W) → Fin W) : Prop :=
  ∀ i j : Fin (T + W), i < j → dispatchReply T W ids i = none → reqs i ≠ reqs j

theorem dispatchReply_isSome_iff (T W : ℕ) {α : Type} (ids : Fin T → α)
    (i : Fin (T + W)) : (dispatchReply T W ids i).isSome ↔ i.val < T := by
  unfold dispatchReply
  split <;> simp_all

theorem dispatchReply_eq_none_iff (T W : ℕ) {α : Type} (ids : Fin T → α)
    (i : Fin (T + W)) : dispatchReply T W ids i = none ↔ T ≤ i.val := by
  unfold dispatchReply
  split <;> simp_all

/-- C1: in every complete dispatch round with T task ids against
W = WORLD_SIZE - 1 workers each looping on _request_dispatch (W ≤ T),
the task ids are exactly the replies of the first T service steps, each
sent once at its own step, every worker receives exactly one sentinel,
sentinels come only after all task ids are exhausted, and no worker
receives a further task after its sentinel. -/
theorem dispatch_round_correct (T W : ℕ) {α : Type} (ids : Fin T → α)
    (reqs : Fin (T + W) → Fin W) (hWT : W ≤ T)
    (hstop : workerStops T W ids reqs) :
    (∀ i : Fin (T + W), (dispatchReply T W ids i).isSome ↔ i.val < T) ∧
    (∀ t : Fin T, dispatchReply T W ids (Fin.castAdd W t) = some (ids t)) ∧
    (∀ w : Fin W, ∃! i : Fin (T + W),
        dispatchReply T W ids i = none ∧ reqs i = w) ∧
    (∀ i j : Fin (T + W), i < j → dispatchReply T W ids i = none →
        reqs i = reqs j → ¬ (dispatchReply T W ids j).isSome) := by
  refine ⟨fun i => dispatchReply_isSome_iff T W ids i, ?_, ?_, ?_⟩
  · intro t
    unfold dispatchReply
    have ht : (Fin.castAdd W t).val < T := t.isLt
    rw [dif_pos ht]
    congr 1
  · -- pigeonhole: the W sentinel steps are mapped injectively onto the W workers
    have hSdef : ∀ i : Fin (T + W),
        dispatchReply T W ids i = none ↔ T ≤ i.val :=
      fun i => dispatchReply_eq_none_iff T W ids i
    set S : Finset (Fin (T + W)) :=
      Finset.univ.filter (fun i => T ≤ i.val) with hS
    have hmemS : ∀ i : Fin (T + W), i ∈ S ↔ T ≤ i.val := by
      intro i
      simp [hS]
    have hcardS : S.card = W := by
      have himg : S = Finset.image
          (fun w : Fin W => (⟨T + w.val, by omega⟩ : Fin (T + W)))
          Finset.univ := by
        ext i
        simp only [hmemS, Finset.mem_image, Finset.mem_univ, true_and]
        constructor
        · intro hT
          refine ⟨⟨i.val - T, by omega⟩, ?_⟩
          apply Fin.ext
          simp
          omega
        · rintro ⟨w, rfl⟩
          simp
      rw [himg, Finset.card_image_of_injective]
      · exact Finset.card_fin W
      · intro a b hab
        apply Fin.ext
        have := congrArg Fin.val hab
        simp at this
        omega
    have hinj : Set.InjOn reqs S := by
      intro i hi j hj hreq
      by_contra hne
      rcases lt_or_gt_of_ne (fun h : i = j => hne h) with hlt | hgt
      · exact hstop i j hlt ((hSdef i).mpr ((hmemS i).mp hi)) hreq
      · exact hstop j i hgt ((hSdef j).mpr ((hmemS j).mp hj)) hreq.symm
    have hcardimg : (S.image reqs).card = W := by
      rw [Finset.card_image_of_injOn hinj, hcardS]
    have huniv : S.image reqs = Finset.univ := by
      apply Finset.eq_univ_of_card
      rw [hcardimg, Fintype.card_fin]
    intro w
    have hw : w ∈ S.image reqs := by
      rw [huniv]
      exact Finset.mem_univ w
    rcases Finset.mem_image.mp hw with ⟨i, hiS, hiw⟩
    refine ⟨i, ⟨(hSdef i).mpr ((hmemS i).mp hiS), hiw⟩, ?_⟩
    rintro j ⟨hjnone, hjw⟩
    have hjS : j ∈ S := (hmemS j).mpr ((hSdef j).mp hjnone)
    exact hinj hjS hiS (by rw [hjw, hiw])
  · intro i j hij hnone hreq
    exact absurd hreq (hstop i j hij hnone)

/-- Concrete task-id assignment for a round with two tasks. -/
def idsEx : Fin 2 → ℕ := fun t => 10 * (t.val + 1)

/-- Concrete request order for a round with two tasks and one worker. -/
def reqsEx : Fin (2 + 1) → Fin 1 := fun _ => ⟨0, by omega⟩

/-- Witness for C1 at T = 2 tasks, W = 1 worker. -/
theorem dispatch_round_correct_witness :
    (1 ≤ 2 ∧ workerStops 2 1 idsEx reqsEx) ∧
    ((∀ i : Fin (2 + 1), (dispatchReply 2 1 idsEx i).isSome ↔ i.val < 2) ∧
    (∀ t : Fin 2, dispatchReply 2 1 idsEx (Fin.castAdd 1 t) = some (idsEx t)) ∧
    (∀ w : Fin 1, ∃! i : Fin (2 + 1),
        dispatchReply 2 1 idsEx i = none ∧ reqsEx i = w) ∧
    (∀ i j : Fin (2 + 1), i < j → dispatchReply 2 1 idsEx i = none →
        reqsEx i = reqsEx j → ¬ (dispatchReply 2 1 idsEx j).isSome)) :=
  ⟨⟨by decide, by unfold workerStops; decide⟩,
   dispatch_round_correct 2 1 idsEx reqsEx (by decide)
     (by unfold workerStops; decide)⟩

/- Section: the model update (_compute_model_update, lines 186-232).

Velocity arrays are flattened to lists of rationals; the reshape to the
grid dimensions is the identity on the flattened data.  The LSMR solver
is external (scipy.sparse.linalg.lsmr), so the update is parameterized
by its solution vector x.  The function mirrors the body: the phase
check comes first and raises ValueError for an unrecognized phase before
the solve and before any mutation; for phase P (resp. S) the new
velocity 1 / (1 / values + projection_matrix * x) is appended to the
realization stack of that phase and nothing else changes. -/

/-- Dot product of two rational vectors, truncating at the shorter. -/
def dotProd (r x : List ℚ) : ℚ := (List.zipWith (· * ·) r x).sum

/-- Dense matrix-vector product, rows given as lists. -/
def matVec (m : List (List ℚ)) (x : List ℚ) : List ℚ :=
  m.map (fun r => dotProd r x)

/-- New velocity of one realization: elementwise
1 / (1 / values + projection_matrix * x), as in lines 222-225. -/
def newVelocity (vals : List ℚ) (pm : List (List ℚ)) (x : List ℚ) : List ℚ :=
  List.zipWith (fun v d => (v⁻¹ + d)⁻¹) vals (matVec pm x)

/-- Cross-iteration state of the InversionIterator that
_compute_model_update can read or mutate. -/
structure IterState where
  pwaveValues : List ℚ
  swaveValues : List ℚ
  pwaveStack : List (List ℚ)
  swaveStack : List (List ℚ)
  projectionMatrix : List (List ℚ)
deriving DecidableEq

/-- Embedding of _compute_model_update (ROOT body): returns the state
after the call together with ok, or the unchanged state together with
the ValueError raised for an unrecognized phase. -/
def computeModelUpdate (phase : String) (x : List ℚ) (st : IterState) :
    IterState × Except String Unit :=
  if phase = "P" then
    ({ st with pwaveStack :=
        st.pwaveStack ++ [newVelocity st.pwaveValues st.projectionMatrix x] },
     Except.ok ())
  else if phase = "S" then
    ({ st with swaveStack :=
        st.swaveStack ++ [newVelocity st.swaveValues st.projectionMatrix x] },
     Except.ok ())
  else
    (st, Except.error ("Unrecognized phase (" ++ phase ++ ") supplied."))

/-- C2: on ROOT, for phase P (resp. S), _compute_model_update with LSMR
solution x appends 1 / (1 / model.values + projection_matrix * x) to
the realization stack of that phase, leaves the values of both models unchanged,
and leaves the stack of the other phase unchanged. -/
theorem compute_model_update_appends (x : List ℚ) (st : IterState) :
    ((computeModelUpdate "P" x st).1.pwaveStack =
        st.pwaveStack ++ [newVelocity st.pwaveValues st.projectionMatrix x] ∧
     (computeModelUpdate "P" x st).1.pwaveValues = st.pwaveValues ∧
     (computeModelUpdate "P" x st).1.swaveValues = st.swaveValues ∧
     (computeModelUpdate "P" x st).1.swaveStack = st.swaveStack ∧
     (computeModelUpdate "P" x st).2 = Except.ok ()) ∧
    ((computeModelUpdate "S" x st).1.swaveStack =
        st.swaveStack ++ [newVelocity st.swaveValues st.projectionMatrix x] ∧
     (computeModelUpdate "S" x st).1.pwaveValues = st.pwaveValues ∧
     (computeModelUpdate "S" x st).1.swaveValues = st.swaveValues ∧
     (computeModelUpdate "S" x st).1.pwaveStack = st.pwaveStack ∧
     (computeModelUpdate "S" x st).2 = Except.ok ()) := by
  constructor <;> refine ⟨rfl, rfl, rfl, rfl, rfl⟩

/-- C8: _compute_model_update raises exactly when the phase is neither
P nor S, and in that case it raises before solving or mutating anything,
so the returned state is the input state. -/
theorem compute_model_update_error_iff (phase : String) (x : List ℚ)
    (st : IterState) :
    ((computeModelUpdate phase x st).2 =
        Except.error ("Unrecognized phase (" ++ phase ++ ") supplied.") ↔
      (phase ≠ "P" ∧ phase ≠ "S")) ∧
    ((phase ≠ "P" ∧ phase ≠ "S") → (computeModelUpdate phase x st).1 = st) := by
  unfold computeModelUpdate
  by_cases hP : phase = "P"
  · subst hP
    simp
  · by_cases hS : phase = "S"
    · subst hS
      simp
    · simp [hP, hS]

/-- Witness for C8 at phase Q: the call errors and the state, hence both
realization stacks and both models, is unchanged. -/
theorem compute_model_update_error_iff_witness :
    (("Q" ≠ "P" ∧ "Q" ≠ "S") →
      (computeModelUpdate "Q" [] ⟨[1], [2], [], [], []⟩).1 =
        ⟨[1], [2], [], [], []⟩) ∧
    ((computeModelUpdate "Q" [] ⟨[1], [2], [], [], []⟩).2 =
        Except.error ("Unrecognized phase (" ++ "Q" ++ ") supplied.") ↔
      ("Q" ≠ "P" ∧ "Q" ≠ "S")) :=
  ⟨(compute_model_update_error_iff "Q" [] ⟨[1], [2], [], [], []⟩).2,
   (compute_model_update_error_iff "Q" [] ⟨[1], [2], [], [], []⟩).1⟩

/- Section: ensemble statistics (update_models, pwave_variance /
swave_variance, lines 115-119, 171-175 and 1036-1052).

np.stack turns the realization stack (a list of equal-length flattened
velocity arrays) into an array; np.mean(stack, axis=0) and
np.var(stack, axis=0) are the elementwise mean and the elementwise
population variance over the realization axis. -/

/-- Elementwise sum of the rows of a stack of equal-length vectors. -/
def sumStack : List (List ℚ) → List ℚ
  | [] => []
  | [v] => v
  | v :: w :: rest => List.zipWith (· + ·) v (sumStack (w :: rest))

/-- Elementwise mean over the realization axis, np.mean(stack, axis=0). -/
def meanStack (stack : List (List ℚ)) : List ℚ :=
  (sumStack stack).map (fun s => s / (stack.length : ℚ))

/-- Elementwise population variance over the realization axis,
np.var(stack, axis=0): the mean of the squared deviations from the
elementwise mean. -/
def varStack (stack : List (List ℚ)) : List ℚ :=
  meanStack (stack.map
    (fun row => List.zipWith (fun a b => (a - b) ^ 2) row (meanStack stack)))

/-- Embedding of update_models (ROOT body): the model values of each phase
become the elementwise mean of the realization stack of that phase. -/
def updateModels (st : IterState) : IterState :=
  { st with
    pwaveValues := meanStack st.pwaveStack
    swaveValues := meanStack st.swaveStack }

/-- Embedding of the pwave_variance property. -/
def pwaveVariance (st : IterState) : List ℚ := varStack st.pwaveStack

/-- Embedding of the swave_variance property. -/
def swaveVariance (st : IterState) : List ℚ := varStack st.swaveStack

theorem zipWith_add_map_mul (c : ℚ) (l : List ℚ) :
    List.zipWith (· + ·) l (l.map (fun v => c * v)) =
      l.map (fun v => (c + 1) * v) := by
  induction l with
  | nil => simp
  | cons a l ih =>
      simp only [List.map_cons, List.zipWith_cons_cons, ih, List.cons.injEq,
        and_true]
      ring

theorem map_one_mul (l : List ℚ) : l.map (fun v => (1 : ℚ) * v) = l := by
  induction l with
  | nil => simp
  | cons a l ih => simp [ih]

theorem sumStack_replicate (V : List ℚ) :
    ∀ n : ℕ, sumStack (List.replicate (n + 1) V) =
      V.map (fun v => (n + 1 : ℚ) * v) := by
  intro n
  induction n with
  | zero =>
      rw [show List.replicate (0 + 1) V = [V] from rfl]
      rw [show sumStack [V] = V from rfl]
      simp
  | succ m ih =>
      rw [show List.replicate (m + 1 + 1) V = V :: List.replicate (m + 1) V from
            List.replicate_succ V (m + 1)]
      rw [show List.replicate (m + 1) V = V :: List.replicate m V from
            List.replicate_succ V m]
      rw [show sumStack (V :: V :: List.replicate m V) =
            List.zipWith (· + ·) V (sumStack (V :: List.replicate m V)) from rfl]
      rw [show (V :: List.replicate m V : List (List ℚ)) =
            List.replicate (m + 1) V from (List.replicate_succ V m).symm]
      rw [ih, zipWith_add_map_mul]
      apply List.map_congr_left
      intro a _
      push_cast
      ring

theorem meanStack_replicate (V : List ℚ) (n : ℕ) :
    meanStack (List.replicate (n + 1) V) = V := by
  unfold meanStack
  rw [sumStack_replicate, List.length_replicate, List.map_map]
  have : ∀ l : List ℚ,
      l.map (fun v => ((n + 1 : ℚ) * v) / ((n + 1 : ℕ) : ℚ)) = l := by
    intro l
    induction l with
    | nil => simp
    | cons a l ih =>
        simp only [List.map_cons, ih, List.cons.injEq, and_true]
        have hne : ((n + 1 : ℕ) : ℚ) ≠ 0 := by
          exact_mod_cast Nat.succ_ne_zero n
        push_cast at hne ⊢
        field_simp
  calc (List.map ((fun s => s / ((n + 1 : ℕ) : ℚ)) ∘ fun v => (n + 1 : ℚ) * v) V)
      = V.map (fun v => ((n + 1 : ℚ) * v) / ((n + 1 : ℕ) : ℚ)) := by
        apply List.map_congr_left
        intro a _
        simp
    _ = V := this V

theorem zipWith_sq_sub_self (V : List ℚ) :
    List.zipWith (fun a b => (a - b) ^ 2) V V = List.replicate V.length 0 := by
  induction V with
  | nil => simp
  | cons a l ih => simp [ih, List.replicate_succ]

theorem varStack_replicate (V : List ℚ) (n : ℕ) :
    varStack (List.replicate (n + 1) V) = List.replicate V.length 0 := by
  unfold varStack
  rw [meanStack_replicate, List.map_replicate, zipWith_sq_sub_self,
      meanStack_replicate]

/-- C7: for a realization stack of R ≥ 1 realizations all equal to the
same array V, update_models sets the model values of the phase to V, and the
corresponding variance property is 0 at every grid node (for both
phases). -/
theorem update_models_constant_stack (R : ℕ) (V Wv : List ℚ)
    (st : IterState) (hR : 1 ≤ R) :
    (updateModels { st with pwaveStack := List.replicate R V,
                            swaveStack := List.replicate R Wv }).pwaveValues = V ∧
    (updateModels { st with pwaveStack := List.replicate R V,
                            swaveStack := List.replicate R Wv }).swaveValues = Wv ∧
    pwaveVariance { st with pwaveStack := List.replicate R V,
                            swaveStack := List.replicate R Wv } =
      List.replicate V.length 0 ∧
    swaveVariance { st with pwaveStack := List.replicate R V,
                            swaveStack := List.replicate R Wv } =
      List.replicate Wv.length 0 := by
  obtain ⟨n, rfl⟩ : ∃ n, R = n + 1 := ⟨R - 1, by omega⟩
  refine ⟨?_, ?_, ?_, ?_⟩
  · simp [updateModels, meanStack_replicate]
  · simp [updateModels, meanStack_replicate]
  · simp [pwaveVariance, varStack_replicate]
  · simp [swaveVariance, varStack_replicate]

/-- Witness for C7 at R = 2 realizations of the constant arrays [3] and
[4] for the P and S stacks respectively. -/
theorem update_models_constant_stack_witness :
    1 ≤ 2 ∧
    ((updateModels { (⟨[], [], [], [], []⟩ : IterState) with
        pwaveStack := List.replicate 2 [3],
        swaveStack := List.replicate 2 [4] }).pwaveValues = [3] ∧
     (updateModels { (⟨[], [], [], [], []⟩ : IterState) with
        pwaveStack := List.replicate 2 [3],
        swaveStack := List.replicate 2 [4] }).swaveValues = [4] ∧
     pwaveVariance { (⟨[], [], [], [], []⟩ : IterState) with
        pwaveStack := List.replicate 2 [3],
        swaveStack := List.replicate 2 [4] } =
       List.replicate (List.length [(3 : ℚ)]) 0 ∧
     swaveVariance { (⟨[], [], [], [], []⟩ : IterState) with
        pwaveStack := List.replicate 2 [3],
        swaveStack := List.replicate 2 [4] } =
       List.replicate (List.length [(4 : ℚ)]) 0) :=
  ⟨by decide,
   update_models_constant_stack 2 [3] [4] ⟨[], [], [], [], []⟩ (by decide)⟩

/- Section: the outlier filter of _sample_arrivals (lines 525-551).

An arrival row carries its phase label and its current residual.  The
filter first restricts to the selected phase (set_index / loc[phase]),
computes the 0.25 and 0.75 quantiles of the residuals of that phase with
the default linear interpolation of pandas on the sorted values, and then
keeps the rows whose residual lies strictly between the Tukey fences
(lines 546-549 use strict > and <).  The random sample drawn afterwards
is outside the filter. -/

/-- Arrival row, reduced to the fields the outlier filter reads. -/
structure Arrival where
  phase : String
  residual : ℚ
deriving DecidableEq

/-- Insert a value into a sorted list of rationals. -/
def insertSorted (x : ℚ) : List ℚ → List ℚ
  | [] => [x]
  | y :: ys => if x ≤ y then x :: y :: ys else y :: insertSorted x ys

/-- Sort a list of rationals, modelling the sorting pandas performs when
computing quantiles. -/
def sortResiduals : List ℚ → List ℚ
  | [] => []
  | x :: xs => insertSorted x (sortResiduals xs)

/-- Floor of a rational as floor division of numerator by denominator. -/
def ratFloor (q : ℚ) : ℤ := Int.fdiv q.num q.den

/-- Quantile with linear interpolation of pandas Series.quantile: for
sorted values x_0 .. x_(n-1) and h = q * (n - 1), the result is
x_floor(h) + (h - floor(h)) * (x_floor(h)+1 - x_floor(h)). -/
def quantile (xs : List ℚ) (q : ℚ) : ℚ :=
  let sorted := sortResiduals xs
  let n := sorted.length
  let h : ℚ := q * ((n : ℚ) - 1)
  let i : ℕ := (ratFloor h).toNat
  let lo := sorted.getD i 0
  let hi := sorted.getD (i + 1) lo
  lo + (h - (i : ℚ)) * (hi - lo)

/-- Arrivals of the selected phase (set_index("phase") / loc[phase]). -/
def phaseSubset (arrivals : List Arrival) (phase : String) : List Arrival :=
  arrivals.filter (fun a => a.phase = phase)

/-- Tukey fences (q1 - k * iqr, q3 + k * iqr) of a residual
distribution, with q1 and q3 its 0.25 and 0.75 quantiles, as computed
in lines 542-545. -/
def tukeyFences (k : ℚ) (residuals : List ℚ) : ℚ × ℚ :=
  let q1 := quantile residuals (1 / 4)
  let q3 := quantile residuals (3 / 4)
  let iqr := q3 - q1
  (q1 - k * iqr, q3 + k * iqr)

/-- Embedding of the outlier-removal step of _sample_arrivals: restrict
to the selected phase, then keep the rows whose residual compares
strictly with the Tukey fences (lines 546-549). -/
def removeOutliers (k : ℚ) (arrivals : List Arrival) (phase : String) :
    List Arrival :=
  let subset := phaseSubset arrivals phase
  let fences := tukeyFences k (subset.map (fun a => a.residual))
  subset.filter (fun a => fences.1 < a.residual ∧ a.residual < fences.2)

/-- Concrete arrival table on which a residual sits exactly on the lower
Tukey fence: residuals 0, 1, 2, 3, 4 give q1 = 1, q3 = 3, iqr = 2, and
with k = 1/2 the fences are (0, 4). -/
def outlierExample : List Arrival :=
  [⟨"P", 0⟩, ⟨"P", 1⟩, ⟨"P", 2⟩, ⟨"P", 3⟩, ⟨"P", 4⟩]

/-- Counterexample to C3 as stated: in outlierExample with k = 1/2 the
lower fence equals 0, the arrival with residual 0 is in the phase-P
table, yet the filter drops it, so a residual exactly equal to a fence
bound is not kept and the kept set is not the closed interval. -/
theorem remove_outliers_drops_fence_value :
    (tukeyFences (1 / 2)
        ((phaseSubset outlierExample "P").map (fun a => a.residual))).1 = 0 ∧
    (⟨"P", 0⟩ : Arrival) ∈ outlierExample ∧
    (⟨"P", 0⟩ : Arrival) ∉ removeOutliers (1 / 2) outlierExample "P" := by
  refine ⟨?_, ?_, ?_⟩
  · norm_num [tukeyFences, phaseSubset, outlierExample, quantile,
      sortResiduals, insertSorted, ratFloor, Int.toNat]
  · simp [outlierExample]
  · norm_num [removeOutliers, tukeyFences, phaseSubset, outlierExample,
      quantile, sortResiduals, insertSorted, ratFloor, Int.toNat,
      List.mem_filter]

/-- C3 amended: the filter keeps exactly the arrivals of the selected
phase whose residual lies strictly inside the open interval
(q1 - k * iqr, q3 + k * iqr); residuals equal to a fence bound are
removed. -/
theorem remove_outliers_membership (k : ℚ) (arrivals : List Arrival)
    (phase : String) (a : Arrival) :
    a ∈ removeOutliers k arrivals phase ↔
      a ∈ arrivals ∧ a.phase = phase ∧
      (tukeyFences k
          ((phaseSubset arrivals phase).map (fun x => x.residual))).1
        < a.residual ∧
      a.residual <
        (tukeyFences k
          ((phaseSubset arrivals phase).map (fun x => x.residual))).2 := by
  unfold removeOutliers phaseSubset
  simp only [List.mem_filter, decide_eq_true_eq]
  tauto

/- Section: the projection matrix (_update_projection_matrix, lines
558-586, and _projected_ray_idxs helper geometry).

Points are rational coordinate triples.  The sph2xyz conversion of pykonal to
the common Cartesian frame is an external transformation and enters as a
function parameter.  scipy.spatial.cKDTree(cells).query(p) returns the
index of the cell minimizing the Euclidean distance to p; squared
distance has the same minimizers, and ties go to the smallest index.
scipy.sparse.coo_matrix sums duplicate (row, column) entries, which
cooEntry reproduces. -/

/-- A point as a rational coordinate triple. -/
abbrev Point3 : Type := ℚ × ℚ × ℚ

/-- Squared Euclidean distance between two points. -/
def sqDist (p q : Point3) : ℚ :=
  (p.1 - q.1) ^ 2 + (p.2.1 - q.2.1) ^ 2 + (p.2.2 - q.2.2) ^ 2

/-- Index returned by the nearest-neighbor query of a cKDTree built over
cells: an index of minimal squared Euclidean distance to p. -/
def nearestIdx (cells : List Point3) (p : Point3) : ℕ :=
  ((List.range cells.length).argmin
    (fun i => sqDist (cells.getD i (0, 0, 0)) p)).getD 0

/-- Entry (r, c) of a COO sparse matrix given by parallel value, row and
column lists: the sum of the values at the triplets whose row is r and
column is c. -/
def cooEntry : List ℚ → List ℕ → List ℕ → ℕ → ℕ → ℚ
  | v :: vs, i :: is, j :: js, r, c =>
      (if i = r ∧ j = c then v else 0) + cooEntry vs is js r c
  | _, _, _, _, _ => 0

/-- COO sparse matrix as assembled by scipy.sparse.coo_matrix. -/
structure CooMatrix where
  values : List ℚ
  rowIds : List ℕ
  colIds : List ℕ
  shape : ℕ × ℕ

/-- Embedding of _update_projection_matrix (ROOT body): convert cells
and flattened grid nodes to the Cartesian frame by the external sph2xyz
map, query the nearest cell per node, and assemble the COO matrix with
rows arange(nnodes), the queried column ids and unit values, of shape
(nnodes, nvoronoi). -/
def updateProjectionMatrix (sph2xyz : Point3 → Point3)
    (voronoiCells gridNodes : List Point3) (nvoronoi : ℕ) : CooMatrix :=
  let cellsXYZ := voronoiCells.map sph2xyz
  let nodesXYZ := gridNodes.map sph2xyz
  let columnIds := nodesXYZ.map (nearestIdx cellsXYZ)
  let nnodes := gridNodes.length
  { values := List.replicate nnodes 1
    rowIds := List.range nnodes
    colIds := columnIds
    shape := (nnodes, nvoronoi) }

theorem nearestIdx_lt (cells : List Point3) (p : Point3)
    (hc : cells ≠ []) : nearestIdx cells p < cells.length := by
  unfold nearestIdx
  rcases h : (List.range cells.length).argmin
      (fun i => sqDist (cells.getD i (0, 0, 0)) p) with _ | m
  · exfalso
    rw [List.argmin_eq_none] at h
    exact hc (List.length_eq_zero.mp (List.range_eq_nil.mp h))
  · have hm := List.argmin_mem h
    rw [List.mem_range] at hm
    simpa using hm

theorem nearestIdx_min (cells : List Point3) (p : Point3)
    (hc : cells ≠ []) (c : ℕ) (hcl : c < cells.length) :
    sqDist (cells.getD (nearestIdx cells p) (0, 0, 0)) p ≤
      sqDist (cells.getD c (0, 0, 0)) p := by
  unfold nearestIdx
  rcases h : (List.range cells.length).argmin
      (fun i => sqDist (cells.getD i (0, 0, 0)) p) with _ | m
  · exfalso
    rw [List.argmin_eq_none] at h
    exact hc (List.length_eq_zero.mp (List.range_eq_nil.mp h))
  · exact List.le_of_mem_argmin (List.mem_range.mpr hcl) h

theorem cooEntry_replicate_range (cols : List ℕ) :
    ∀ k r c : ℕ,
      cooEntry (List.replicate cols.length 1) (List.range' k cols.length)
        cols r c =
      if k ≤ r ∧ r < k + cols.length ∧ cols.getD (r - k) 0 = c then 1
      else 0 := by
  induction cols with
  | nil =>
      intro k r c
      rw [if_neg]
      · rfl
      · rintro ⟨h1, h2, h3⟩
        simp at h2
        omega
  | cons x xs ih =>
      intro k r c
      rw [show (x :: xs).length = xs.length + 1 from rfl,
          List.replicate_succ, List.range'_succ]
      rw [show cooEntry (1 :: List.replicate xs.length 1)
            (k :: List.range' (k + 1) xs.length) (x :: xs) r c =
          (if k = r ∧ x = c then 1 else 0) +
            cooEntry (List.replicate xs.length 1)
              (List.range' (k + 1) xs.length) xs r c from rfl]
      rw [ih (k + 1) r c]
      by_cases hrk : r = k
      · have hgd : (x :: xs).getD (r - k) 0 = x := by
          rw [hrk, Nat.sub_self]
          rfl
        rw [if_neg (show ¬(k + 1 ≤ r ∧ r < k + 1 + xs.length ∧
              xs.getD (r - (k + 1)) 0 = c) from by
            rintro ⟨h1, _, _⟩
            omega)]
        by_cases hx : x = c
        · rw [if_pos ⟨hrk.symm, hx⟩,
              if_pos ⟨by omega, by omega, hgd.trans hx⟩]
          norm_num
        · rw [if_neg (fun h => hx h.2),
              if_neg (fun h => hx (hgd.symm.trans h.2.2))]
          norm_num
      · rw [if_neg (fun h => hrk h.1.symm)]
        have hgd : k + 1 ≤ r →
            (x :: xs).getD (r - k) 0 = xs.getD (r - (k + 1)) 0 := by
          intro h
          rw [show r - k = (r - (k + 1)) + 1 from by omega,
              List.getD_cons_succ]
        by_cases hin : k + 1 ≤ r ∧ r < k + 1 + xs.length ∧
            xs.getD (r - (k + 1)) 0 = c
        · rw [if_pos hin,
              if_pos ⟨by omega, by omega, by
                rw [hgd hin.1]
                exact hin.2.2⟩]
          norm_num
        · rw [if_neg hin, if_neg]
          · norm_num
          · rintro ⟨h1, h2, h3⟩
            have hk1 : k + 1 ≤ r := by omega
            rw [hgd hk1] at h3
            exact hin ⟨hk1, by omega, h3⟩

/-- C4: the matrix built by _update_projection_matrix has shape
(number of grid nodes, nvoronoi); row n of the assembled COO matrix is
the 0/1 indicator of the nearest-cell column, so it has exactly one
nonzero entry and that entry is 1; and the column index of the nonzero
is an index of a Voronoi cell of minimal Euclidean distance to node n
after both are converted to the common Cartesian frame. -/
theorem update_projection_matrix_correct (sph2xyz : Point3 → Point3)
    (voronoiCells gridNodes : List Point3) (nvoronoi : ℕ) (n : ℕ)
    (hn : n < gridNodes.length) (hcells : voronoiCells ≠ []) :
    (updateProjectionMatrix sph2xyz voronoiCells gridNodes nvoronoi).shape =
      (gridNodes.length, nvoronoi) ∧
    (∀ c : ℕ,
      cooEntry
        (updateProjectionMatrix sph2xyz voronoiCells gridNodes nvoronoi).values
        (updateProjectionMatrix sph2xyz voronoiCells gridNodes nvoronoi).rowIds
        (updateProjectionMatrix sph2xyz voronoiCells gridNodes nvoronoi).colIds
        n c =
      if c = nearestIdx (voronoiCells.map sph2xyz)
          (sph2xyz (gridNodes.getD n (0, 0, 0))) then 1 else 0) ∧
    (∃! c : ℕ,
      cooEntry
        (updateProjectionMatrix sph2xyz voronoiCells gridNodes nvoronoi).values
        (updateProjectionMatrix sph2xyz voronoiCells gridNodes nvoronoi).rowIds
        (updateProjectionMatrix sph2xyz voronoiCells gridNodes nvoronoi).colIds
        n c ≠ 0) ∧
    nearestIdx (voronoiCells.map sph2xyz)
        (sph2xyz (gridNodes.getD n (0, 0, 0))) < voronoiCells.length ∧
    (∀ c : ℕ, c < voronoiCells.length →
      sqDist
        ((voronoiCells.map sph2xyz).getD
          (nearestIdx (voronoiCells.map sph2xyz)
            (sph2xyz (gridNodes.getD n (0, 0, 0)))) (0, 0, 0))
        (sph2xyz (gridNodes.getD n (0, 0, 0))) ≤
      sqDist ((voronoiCells.map sph2xyz).getD c (0, 0, 0))
        (sph2xyz (gridNodes.getD n (0, 0, 0)))) := by
  have hclen : (voronoiCells.map sph2xyz) ≠ [] := by
    intro h
    exact hcells (List.map_eq_nil_iff.mp h)
  have hentry : ∀ c : ℕ,
      cooEntry
        (updateProjectionMatrix sph2xyz voronoiCells gridNodes nvoronoi).values
        (updateProjectionMatrix sph2xyz voronoiCells gridNodes nvoronoi).rowIds
        (updateProjectionMatrix sph2xyz voronoiCells gridNodes nvoronoi).colIds
        n c =
      if c = nearestIdx (voronoiCells.map sph2xyz)
          (sph2xyz (gridNodes.getD n (0, 0, 0))) then 1 else 0 := by
    intro c
    unfold updateProjectionMatrix
    simp only
    have hlen : ((gridNodes.map sph2xyz).map
        (nearestIdx (voronoiCells.map sph2xyz))).length = gridNodes.length := by
      simp
    rw [show gridNodes.length = ((gridNodes.map sph2xyz).map
          (nearestIdx (voronoiCells.map sph2xyz))).length from hlen.symm,
        List.range_eq_range', cooEntry_replicate_range]
    have hget : ((gridNodes.map sph2xyz).map
        (nearestIdx (voronoiCells.map sph2xyz))).getD (n - 0) 0 =
        nearestIdx (voronoiCells.map sph2xyz)
          (sph2xyz (gridNodes.getD n (0, 0, 0))) := by
      rw [Nat.sub_zero]
      have hn2 : n < ((gridNodes.map sph2xyz).map
          (nearestIdx (voronoiCells.map sph2xyz))).length := by
        simpa using hn
      rw [List.getD_eq_getElem _ _ hn2]
      simp only [List.getElem_map]
      congr 1
      rw [List.getD_eq_getElem _ _ hn]
    rw [hget]
    by_cases hc : c = nearestIdx (voronoiCells.map sph2xyz)
        (sph2xyz (gridNodes.getD n (0, 0, 0)))
    · rw [if_pos hc, if_pos]
      exact ⟨by omega, by simpa using hn, hc.symm⟩
    · rw [if_neg hc, if_neg]
      intro hcon
      exact hc hcon.2.2.symm
  refine ⟨rfl, hentry, ?_, ?_, ?_⟩
  · refine ⟨nearestIdx (voronoiCells.map sph2xyz)
      (sph2xyz (gridNodes.getD n (0, 0, 0))), ?_, ?_⟩
    · simp only [hentry]
      simp
    · intro c hcne
      simp only [hentry] at hcne
      by_contra hne
      exact hcne (by rw [if_neg hne])
  · have := nearestIdx_lt (voronoiCells.map sph2xyz)
      (sph2xyz (gridNodes.getD n (0, 0, 0))) hclen
    simpa using this
  · intro c hcl
    exact nearestIdx_min (voronoiCells.map sph2xyz)
      (sph2xyz (gridNodes.getD n (0, 0, 0))) hclen c (by simpa using hcl)

/-- Concrete Voronoi cells for the projection-matrix witness. -/
def cellsEx : List Point3 := [(0, 0, 0), (2, 0, 0)]

/-- Concrete flattened grid nodes for the projection-matrix witness. -/
def nodesEx : List Point3 := [(1, 0, 0), (3, 0, 0)]

/-- Witness for C4 at the identity Cartesian conversion, two cells and
two grid nodes, checking node 0. -/
theorem update_projection_matrix_correct_witness :
    (0 < nodesEx.length ∧ cellsEx ≠ []) ∧
    ((updateProjectionMatrix id cellsEx nodesEx 2).shape =
      (nodesEx.length, 2) ∧
    (∀ c : ℕ,
      cooEntry (updateProjectionMatrix id cellsEx nodesEx 2).values
        (updateProjectionMatrix id cellsEx nodesEx 2).rowIds
        (updateProjectionMatrix id cellsEx nodesEx 2).colIds 0 c =
      if c = nearestIdx (cellsEx.map id) (id (nodesEx.getD 0 (0, 0, 0)))
      then 1 else 0) ∧
    (∃! c : ℕ,
      cooEntry (updateProjectionMatrix id cellsEx nodesEx 2).values
        (updateProjectionMatrix id cellsEx nodesEx 2).rowIds
        (updateProjectionMatrix id cellsEx nodesEx 2).colIds 0 c ≠ 0) ∧
    nearestIdx (cellsEx.map id) (id (nodesEx.getD 0 (0, 0, 0))) <
      cellsEx.length ∧
    (∀ c : ℕ, c < cellsEx.length →
      sqDist ((cellsEx.map id).getD
          (nearestIdx (cellsEx.map id) (id (nodesEx.getD 0 (0, 0, 0))))
          (0, 0, 0))
        (id (nodesEx.getD 0 (0, 0, 0))) ≤
      sqDist ((cellsEx.map id).getD c (0, 0, 0))
        (id (nodesEx.getD 0 (0, 0, 0))))) :=
  ⟨⟨by simp [nodesEx], by simp [cellsEx]⟩,
   update_projection_matrix_correct id cellsEx nodesEx 2 0
     (by simp [nodesEx]) (by simp [cellsEx])⟩

/- Section: ROOT-side assembly of the sensitivity matrix
(_compute_sensitivity_matrix, lines 251-284).

ROOT gathers per-worker arrays of column indices, per-observation
segment counts, nonzero values and residuals, filters out the None
placeholders that non-workers contribute, concatenates the remainder,
expands the segment counts into explicit row indices (row i repeated
nsegments[i] times, in order of i), and assembles a COO matrix of shape
(len(nsegments), nvoronoi) paired with the residual vector. -/

/-- Per-worker arrays returned through the gather of lines 303-306. -/
structure WorkerArrays where
  columnIdxs : List ℕ
  nsegments : List ℕ
  nonzeroValues : List ℚ
  residuals : List ℚ

/-- Row-index expansion of lines 272-276: the list comprehension
enumerating i over range(len(nsegments)) and repeating i nsegments[i]
times. -/
def rowIdxs (nsegments : List ℕ) : List ℕ :=
  (List.range nsegments.length).flatMap
    (fun i => List.replicate (nsegments.getD i 0) i)

/-- ROOT-side assembled sensitivity system: the COO matrix of lines
278-281 and the residual vector paired with it. -/
def assembleSensitivity (gathered : List WorkerArrays) (nvoronoi : ℕ) :
    CooMatrix × List ℚ :=
  let nsegments := (gathered.map (fun w => w.nsegments)).flatten
  let columnIdxs := (gathered.map (fun w => w.columnIdxs)).flatten
  let nonzeroValues := (gathered.map (fun w => w.nonzeroValues)).flatten
  let residuals := (gathered.map (fun w => w.residuals)).flatten
  ({ values := nonzeroValues
     rowIds := rowIdxs nsegments
     colIds := columnIdxs
     shape := (nsegments.length, nvoronoi) }, residuals)

theorem count_flatMap_replicate (g : ℕ → ℕ) :
    ∀ (n k r : ℕ),
      ((List.range' k n).flatMap (fun i => List.replicate (g i) i)).count r =
      if k ≤ r ∧ r < k + n then g r else 0 := by
  intro n
  induction n with
  | zero =>
      intro k r
      rw [if_neg (by omega)]
      rfl
  | succ m ih =>
      intro k r
      rw [List.range'_succ, List.flatMap_cons, List.count_append,
          List.count_replicate, ih (k + 1) r]
      simp only [beq_iff_eq]
      by_cases hrk : r = k
      · rw [if_pos hrk.symm, if_neg (by omega), if_pos (by omega), hrk]
        omega
      · rw [if_neg (fun h => hrk h.symm)]
        by_cases hin : k + 1 ≤ r ∧ r < k + 1 + m
        · rw [if_pos hin, if_pos (by omega)]
          omega
        · rw [if_neg hin, if_neg (by omega)]

theorem pairwise_flatMap_replicate (g : ℕ → ℕ) :
    ∀ (n k : ℕ),
      ((List.range' k n).flatMap
        (fun i => List.replicate (g i) i)).Pairwise (· ≤ ·) := by
  intro n
  induction n with
  | zero =>
      intro k
      exact List.Pairwise.nil
  | succ m ih =>
      intro k
      rw [List.range'_succ, List.flatMap_cons, List.pairwise_append]
      refine ⟨List.pairwise_replicate.mpr (Or.inr (le_refl k)), ih (k + 1),
        ?_⟩
      intro a ha b hb
      have ha2 : a = k := List.eq_of_mem_replicate ha
      have hb2 : k + 1 ≤ b := by
        rcases List.mem_flatMap.mp hb with ⟨i, hi, hbi⟩
        have : b = i := List.eq_of_mem_replicate hbi
        rcases List.mem_range'.mp hi with ⟨j, hj, rfl⟩
        omega
      omega

/-- C5: on ROOT the row-index array built from the concatenated
per-observation segment counts contains row index i exactly
nsegments[i] times, in nondecreasing order of i; the assembled matrix
has shape (len(nsegments), nvoronoi); and whenever every worker
contributed one residual per observation (as the worker loop does), the
residual vector has the same length as the row count. -/
theorem assemble_sensitivity_correct (gathered : List WorkerArrays)
    (nvoronoi : ℕ)
    (hlock : ∀ w ∈ gathered, w.nsegments.length = w.residuals.length) :
    (∀ i : ℕ,
      i < ((gathered.map (fun w => w.nsegments)).flatten).length →
      ((assembleSensitivity gathered nvoronoi).1.rowIds).count i =
        ((gathered.map (fun w => w.nsegments)).flatten).getD i 0) ∧
    ((assembleSensitivity gathered nvoronoi).1.rowIds).Pairwise (· ≤ ·) ∧
    (assembleSensitivity gathered nvoronoi).1.shape =
      (((gathered.map (fun w => w.nsegments)).flatten).length, nvoronoi) ∧
    ((assembleSensitivity gathered nvoronoi).2).length =
      (assembleSensitivity gathered nvoronoi).1.shape.1 := by
  refine ⟨?_, ?_, rfl, ?_⟩
  · intro i hi
    show (rowIdxs ((gathered.map (fun w => w.nsegments)).flatten)).count i = _
    unfold rowIdxs
    rw [List.range_eq_range',
        count_flatMap_replicate
          (fun j => ((gathered.map (fun w => w.nsegments)).flatten).getD j 0)]
    rw [if_pos ⟨by omega, by omega⟩]
  · show (rowIdxs ((gathered.map (fun w => w.nsegments)).flatten)).Pairwise _
    unfold rowIdxs
    rw [List.range_eq_range']
    exact pairwise_flatMap_replicate _ _ 0
  · show ((gathered.map (fun w => w.residuals)).flatten).length =
      ((gathered.map (fun w => w.nsegments)).flatten).length
    induction gathered with
    | nil => rfl
    | cons w ws ih =>
        simp only [List.map_cons, List.flatten_cons, List.length_append]
        rw [ih (fun v hv => hlock v (List.mem_cons_of_mem w hv)),
            hlock w (List.mem_cons_self w ws)]

/-- Concrete gathered worker arrays for the sensitivity-assembly
witness: one worker with two observations of 2 and 1 ray segments, one
idle worker. -/
def gatheredEx : List WorkerArrays :=
  [⟨[0, 1, 0], [2, 1], [5, 6, 7], [8, 9]⟩, ⟨[], [], [], []⟩]

/-- Witness for C5 on gatheredEx with nvoronoi = 2. -/
theorem assemble_sensitivity_correct_witness :
    (∀ w ∈ gatheredEx, w.nsegments.length = w.residuals.length) ∧
    ((∀ i : ℕ,
      i < ((gatheredEx.map (fun w => w.nsegments)).flatten).length →
      ((assembleSensitivity gatheredEx 2).1.rowIds).count i =
        ((gatheredEx.map (fun w => w.nsegments)).flatten).getD i 0) ∧
    ((assembleSensitivity gatheredEx 2).1.rowIds).Pairwise (· ≤ ·) ∧
    (assembleSensitivity gatheredEx 2).1.shape =
      (((gatheredEx.map (fun w => w.nsegments)).flatten).length, 2) ∧
    ((assembleSensitivity gatheredEx 2).2).length =
      (assembleSensitivity gatheredEx 2).1.shape.1) :=
  ⟨by decide, assemble_sensitivity_correct gatheredEx 2 (by decide)⟩

/- Section: the ensemble save (save, lines 880-913).

For iiter > 0, save writes the realizations NPZ file.  Lines 902-903
read
  pwave_stack = np.stack(self.pwave_realization_stack)
  swave_stack = np.stack(self.pwave_realization_stack)
so the array stored under the swave_stack handle is also the stack of
the P-wave realization stack. -/

/-- Arrays written to the realizations file under the pwave_stack and
swave_stack handles, as computed by lines 902-903; none when iiter = 0
and the file is not written. -/
def savedEnsembleStacks (iiter : ℕ) (st : IterState) :
    Option (List (List ℚ) × List (List ℚ)) :=
  if iiter > 0 then some (st.pwaveStack, st.pwaveStack) else none

/-- C6 failing-input evaluation: at iteration 1 with distinct
realization stacks [[1]] and [[2]], the saved pwave_stack handle holds
the P stack, but the saved swave_stack handle also holds the P stack
and differs from the S-wave realization stack, contradicting the claim
that the own stack of each phase is saved. -/
theorem saved_ensemble_swaps_in_pwave_stack :
    savedEnsembleStacks 1 ⟨[], [], [[1]], [[2]], []⟩ = some ([[1]], [[1]]) ∧
    (⟨[], [], [[1]], [[2]], []⟩ : IterState).swaveStack = [[2]] ∧
    (savedEnsembleStacks 1 ⟨[], [], [[1]], [[2]], []⟩).map
        (fun p => p.2) ≠ some [[2]] := by
  refine ⟨rfl, rfl, ?_⟩
  intro h
  simp only [savedEnsembleStacks] at h
  norm_num at h

/- Section: the non-ROOT worker branch of _compute_sensitivity_matrix
(lines 286-341).

Python resolves names at use time.  At line 321 the branch executes
  vel = pykonal.fields.load(vel)
where vel occurs on the right-hand side of its own first assignment, so
the name is unbound there; at line 330 the branch tests vel_invert,
which is assigned nowhere in the function.  The local environment at
line 321 is the set of names already bound in the branch, and looking
up an unbound name raises NameError.  The per-station task handler is
parameterized by an arbitrary continuation k standing for the
accumulation code at lines 330-340, which is unreachable. -/

/-- Names bound in the worker branch when line 321 executes. -/
def workerBoundNames : List String :=
  ["self", "phase", "nvoronoi", "traveltime_dir", "index_keys", "arrivals",
   "column_idxs", "nsegments", "nonzero_values", "residuals", "events",
   "item", "network", "station", "_arrivals", "path", "traveltime"]

/-- Python name resolution: an unbound name raises NameError. -/
def lookupName (env : List String) (n : String) : Except String Unit :=
  if n ∈ env then Except.ok () else Except.error ("NameError: " ++ n)

/-- Handler for one dispatched (network, station) task in the worker
branch: line 321 evaluates the name vel before anything is accumulated,
line 330 evaluates vel_invert before either projection mode, and only
then would the accumulation continuation k run. -/
def processStationTask (k : WorkerArrays → WorkerArrays)
    (acc : WorkerArrays) : Except String WorkerArrays :=
  match lookupName workerBoundNames "vel" with
  | Except.error e => Except.error e
  | Except.ok _ =>
      match lookupName (workerBoundNames ++ ["vel", "step_size"])
          "vel_invert" with
      | Except.error e => Except.error e
      | Except.ok _ => Except.ok (k acc)

/-- Empty per-worker accumulator arrays of lines 288-291. -/
def emptyWorkerArrays : WorkerArrays := ⟨[], [], [], []⟩

/-- Worker loop of lines 296-341 over the stream of dispatched items:
a task is processed by processStationTask, the sentinel ends the loop
returning the accumulated arrays for the gather. -/
def workerSensLoop (k : WorkerArrays → WorkerArrays) :
    List (Option (String × String)) → WorkerArrays →
      Except String WorkerArrays
  | [], acc => Except.ok acc
  | none :: _, acc => Except.ok acc
  | some _ :: rest, acc =>
      match processStationTask k acc with
      | Except.error e => Except.error e
      | Except.ok acc2 => workerSensLoop k rest acc2

/-- C9: every dispatched task makes the worker branch raise NameError on
the unbound name vel before any accumulation (with vel_invert also
unbound ahead of either projection mode), so the branch completes
without error exactly when the sentinel arrives before any task, and
then its accumulators are still empty. -/
theorem worker_branch_name_error (k : WorkerArrays → WorkerArrays) :
    (∀ (t : String × String) (rest : List (Option (String × String))),
      workerSensLoop k (some t :: rest) emptyWorkerArrays =
        Except.error ("NameError: " ++ "vel")) ∧
    (lookupName (workerBoundNames ++ ["vel", "step_size"]) "vel_invert" =
      Except.error ("NameError: " ++ "vel_invert")) ∧
    (∀ rest : List (Option (String × String)),
      workerSensLoop k (none :: rest) emptyWorkerArrays =
        Except.ok emptyWorkerArrays) ∧
    (∀ (msgs : List (Option (String × String))) (acc : WorkerArrays),
      workerSensLoop k msgs emptyWorkerArrays = Except.ok acc →
        acc = emptyWorkerArrays) := by
  have hvel : lookupName workerBoundNames "vel" =
      Except.error ("NameError: " ++ "vel") := by
    unfold lookupName
    rw [if_neg]
    decide
  have hvi : lookupName (workerBoundNames ++ ["vel", "step_size"])
      "vel_invert" = Except.error ("NameError: " ++ "vel_invert") := by
    unfold lookupName
    rw [if_neg]
    decide
  refine ⟨?_, hvi, fun rest => rfl, ?_⟩
  · intro t rest
    show (match processStationTask k emptyWorkerArrays with
      | Except.error e => Except.error e
      | Except.ok acc2 => workerSensLoop k rest acc2) = _
    unfold processStationTask
    rw [hvel]
  · intro msgs acc h
    match msgs with
    | [] => exact (Except.ok.injEq _ _ ▸ h).symm ▸ rfl
    | none :: rest => exact (Except.ok.injEq _ _ ▸ h).symm ▸ rfl
    | some t :: rest =>
        exfalso
        have h2 : workerSensLoop k (some t :: rest) emptyWorkerArrays =
            Except.error ("NameError: " ++ "vel") := by
          show (match processStationTask k emptyWorkerArrays with
            | Except.error e => Except.error e
            | Except.ok acc2 => workerSensLoop k rest acc2) = _
          unfold processStationTask
          rw [hvel]
        rw [h2] at h
        exact Except.noConfusion h

/-- Witness for C9 at the identity continuation, the task ("NC", "X")
followed by the sentinel, and the sentinel-first stream. -/
theorem worker_branch_name_error_witness :
    (workerSensLoop id [some ("NC", "X"), none] emptyWorkerArrays =
      Except.error ("NameError: " ++ "vel")) ∧
    (workerSensLoop id [none] emptyWorkerArrays =
      Except.ok emptyWorkerArrays) ∧
    (workerSensLoop id [none] emptyWorkerArrays =
        Except.ok emptyWorkerArrays →
      emptyWorkerArrays = emptyWorkerArrays) :=
  ⟨(worker_branch_name_error id).1 ("NC", "X") [none],
   (worker_branch_name_error id).2.2.1 [],
   (worker_branch_name_error id).2.2.2 [none] emptyWorkerArrays⟩

/- Section: the sentinel value of the dispatch protocol (C10).

_dispatch is declared as _dispatch(self, ids, sentinel=None) and every
call site uses the default, so the sentinel is None; _request_dispatch
returns the received item unchanged, and every worker loop tests
item is None to stop.  Messages are therefore Option values with none
as the sentinel, and a task id equal to None is indistinguishable from
the sentinel. -/

/-- Default sentinel of _dispatch: None. -/
def dispatchSentinel {α : Type} : Option α := none

/-- Embedding of _request_dispatch: the received item is returned
unchanged. -/
def requestDispatch {α : Type} (item : α) : α := item

/-- Message stream one worker can observe in a round: dispatched task
ids (raw Python values, where a None id coincides with none) followed
by sentinels, as _dispatch sends ids first and sentinels last. -/
def dispatchStream {α : Type} (ids : List (Option α)) (nsent : ℕ) :
    List (Option α) :=
  ids ++ List.replicate nsent (dispatchSentinel : Option α)

/-- Worker loop on _request_dispatch: process tasks until the first
item that is None, then stop; returns the tasks actually processed. -/
def workerTaskLoop {α : Type} : List (Option α) → List α
  | [] => []
  | none :: _ => []
  | some t :: rest => t :: workerTaskLoop rest

theorem workerTaskLoop_all_some {α : Type} :
    ∀ (ids : List (Option α)), (∀ x ∈ ids, x ≠ none) →
      ∀ tail : List (Option α),
        workerTaskLoop (ids ++ (none :: tail)) = ids.filterMap id := by
  intro ids
  induction ids with
  | nil =>
      intro _ tail
      rfl
  | cons x xs ih =>
      intro hx tail
      match x, hx with
      | some t, hx =>
          show t :: workerTaskLoop (xs ++ (none :: tail)) = _
          rw [ih (fun y hy => hx y (List.mem_cons_of_mem _ hy)) tail]
          rfl
      | none, hx => exact absurd rfl (hx none (List.mem_cons_self _ _))

/-- C10: the dispatch sentinel is None (the default argument of
_dispatch), _request_dispatch returns the received item unchanged and
none is the stop signal, so a round delivers all task ids exactly when
none of them is None, while a None task id silently terminates its
receiving worker early, with every id after it undelivered. -/
theorem dispatch_sentinel_is_none
    (ids pre post : List (Option ℕ)) (nsent : ℕ)
    (hids : ∀ x ∈ ids, x ≠ none) (hpre : ∀ x ∈ pre, x ≠ none) :
    (dispatchSentinel : Option ℕ) = none ∧
    (∀ x : Option ℕ, requestDispatch x = x) ∧
    workerTaskLoop (dispatchStream ids (nsent + 1)) = ids.filterMap id ∧
    workerTaskLoop (dispatchStream (pre ++ none :: post) (nsent + 1)) =
      pre.filterMap id := by
  refine ⟨rfl, fun x => rfl, ?_, ?_⟩
  · show workerTaskLoop
      (ids ++ List.replicate (nsent + 1) (dispatchSentinel : Option ℕ)) = _
    rw [show List.replicate (nsent + 1) (dispatchSentinel : Option ℕ) =
          none :: List.replicate nsent none from List.replicate_succ _ _]
    exact workerTaskLoop_all_some ids hids _
  · show workerTaskLoop ((pre ++ none :: post) ++
      List.replicate (nsent + 1) (dispatchSentinel : Option ℕ)) = _
    rw [List.append_assoc, List.cons_append]
    exact workerTaskLoop_all_some pre hpre _

/-- Witness for C10: a round over task ids 4, 5 is fully delivered,
while inserting a None id after 4 makes the worker stop with only 4
processed and 6 never delivered. -/
theorem dispatch_sentinel_is_none_witness :
    ((∀ x ∈ [some 4, some 5], x ≠ (none : Option ℕ)) ∧
     (∀ x ∈ [some 4], x ≠ (none : Option ℕ))) ∧
    ((dispatchSentinel : Option ℕ) = none ∧
    (∀ x : Option ℕ, requestDispatch x = x) ∧
    workerTaskLoop (dispatchStream [some 4, some 5] (0 + 1)) =
      [some 4, some 5].filterMap id ∧
    workerTaskLoop (dispatchStream ([some 4] ++ none :: [some 6]) (0 + 1)) =
      [some 4].filterMap id) :=
  ⟨⟨by decide, by decide⟩,
   dispatch_sentinel_is_none [some 4, some 5] [some 4] [some 6] 0
     (by decide) (by decide)⟩

end PyVoroTomo
